import Mathlib

/-!
Verification development for the URL canonicalization engine of the
`fuckburl-bot` repository (`src/replacer.rs`).

Modelling conventions:
* Rust strings are modelled as `List Nat` (their UTF-8 bytes).  All concrete
  inputs appearing below are ASCII, so `str2b` (which maps each character to
  its code point) produces exactly the UTF-8 bytes, and the byte offsets used
  by `String::replace_range` coincide with positions in the list.
* The `fancy_regex` patterns of `replacer.rs` are transliterated into a small
  regex AST (`Re`) and executed by a fuel-bounded backtracking matcher with
  Perl semantics: leftmost match, alternation prefers the left branch, `*`,
  `+` and `?` are greedy, `(?<![a-zA-Z])` is a negative lookbehind on the
  previous byte, `^` anchors to the start of the text.  Named capture groups
  are given numeric indices; unnamed groups that no replacement template ever
  references are modelled as plain grouping.
* A `String::replace_range` call that would panic in Rust (range end past the
  end of the string) is modelled as `none` / the `PErr.panicked` error: in
  either case the caller observes no rewritten string.
* Fallible operations (`get_redirect_url`, `grid.decode()`, QR encoding)
  return `Except`/`Option` values; the external effects themselves (HTTP,
  image rasters) enter the model as function parameters.
-/

namespace Burl

/-- Bytes of an ASCII string: for ASCII, code points equal UTF-8 bytes. -/
def str2b (s : String) : List Nat := s.data.map Char.toNat

/-- The slice `t[s..e]` (byte range), as used by `Match::range`. -/
def sliceB (t : List Nat) (s e : Nat) : List Nat := (t.drop s).take (e - s)

/-- The suffix `t[s..]`. -/
def sliceFrom (t : List Nat) (s : Nat) : List Nat := t.drop s

/-- `String::replace_range(s..e, r)`: Rust panics when the range is invalid
or its end lies past the end of the string; the panic is modelled as `none`. -/
def replaceRange (t : List Nat) (s e : Nat) (r : List Nat) : Option (List Nat) :=
  if s ≤ e ∧ e ≤ t.length then some (t.take s ++ r ++ t.drop e) else none

/-! ### Regex AST and backtracking matcher -/

/-- Regex AST covering exactly the constructs appearing in `replacer.rs`:
literals, character classes, concatenation, alternation, greedy `*`/`?`,
capture groups, the negative lookbehind `(?<![a-zA-Z])` and the anchor `^`. -/
inductive Re where
  | eps : Re
  | lit : Nat → Re
  | cls : Bool → List (Nat × Nat) → Re   -- negated? , ranges (inclusive)
  | cat : Re → Re → Re
  | alt : Re → Re → Re
  | star : Re → Re
  | opt : Re → Re
  | group : Nat → Re → Re
  | nlbAlpha : Re                        -- (?<![a-zA-Z])
  | bos : Re                             -- ^
deriving Repr

/-- Captures: (group index, start byte, end byte); most recent first. -/
abbrev Caps := List (Nat × Nat × Nat)

def inRanges (b : Nat) : List (Nat × Nat) → Bool
  | [] => false
  | (lo, hi) :: rs => (lo ≤ b ∧ b ≤ hi : Bool) || inRanges b rs

def isAlphaByte (b : Nat) : Bool :=
  inRanges b [(65, 90), (97, 122)]

/-- Continuation of the backtracking matcher: receives the reversed prefix,
the remaining bytes, the current position and the captures. -/
abbrev MK := List Nat → List Nat → Nat → Caps → Option (Nat × Caps)

/-- Fuel-bounded backtracking matcher (Perl semantics, as in `fancy_regex`):
alternation tries the left branch first, `star`/`opt` are greedy and
backtrack through the continuation `k`.  `prev` is the reversed text before
`pos` (for the lookbehind), `rest` the text from `pos` on. -/
def matchRe : Nat → Re → List Nat → List Nat → Nat → Caps → MK → Option (Nat × Caps)
  | 0, _, _, _, _, _, _ => none
  | Nat.succ f, re, prev, rest, pos, caps, k =>
    match re with
    | .eps => k prev rest pos caps
    | .lit c =>
      match rest with
      | [] => none
      | b :: r => if b = c then k (b :: prev) r (pos + 1) caps else none
    | .cls neg rs =>
      match rest with
      | [] => none
      | b :: r =>
        if (inRanges b rs).xor neg then k (b :: prev) r (pos + 1) caps else none
    | .cat a b =>
      matchRe f a prev rest pos caps
        (fun p' r' pos' caps' => matchRe f b p' r' pos' caps' k)
    | .alt a b =>
      match matchRe f a prev rest pos caps k with
      | some res => some res
      | none => matchRe f b prev rest pos caps k
    | .star r =>
      match matchRe f r prev rest pos caps
          (fun p' r' pos' caps' =>
            if pos' = pos then none
            else matchRe f (.star r) p' r' pos' caps' k) with
      | some res => some res
      | none => k prev rest pos caps
    | .opt r =>
      match matchRe f r prev rest pos caps k with
      | some res => some res
      | none => k prev rest pos caps
    | .group i r =>
      matchRe f r prev rest pos caps
        (fun p' r' pos' caps' => k p' r' pos' ((i, pos, pos') :: caps'))
    | .nlbAlpha =>
      match prev with
      | [] => k prev rest pos caps
      | b :: _ => if isAlphaByte b then none else k prev rest pos caps
    | .bos =>
      match prev with
      | [] => k prev rest pos caps
      | _ :: _ => none

/-- Fuel that dominates the matcher's recursion depth for all patterns of
`replacer.rs` (every star body consumes at least one byte). -/
def fuelFor (rest : List Nat) : Nat := (rest.length + 2) * 300

/-- Try to match `re` at the current position; returns end position and
captures of the leftmost-preferred parse. -/
def tryMatch (re : Re) (prev rest : List Nat) (pos : Nat) : Option (Nat × Caps) :=
  matchRe (fuelFor rest) re prev rest pos [] (fun _ _ p c => some (p, c))

/-- Scan for the leftmost match at a position `≥ pos` (the semantics of
`Regex::find` / each step of `find_iter`). -/
def findFrom (re : Re) : List Nat → List Nat → Nat → Option (Nat × Nat × Caps)
  | prev, rest, pos =>
    match tryMatch re prev rest pos with
    | some (e, caps) => some (pos, e, caps)
    | none =>
      match rest with
      | [] => none
      | b :: r => findFrom re (b :: prev) r (pos + 1)

/-- Leftmost match of `re` in `t` starting the scan at byte `cur`. -/
def findNextAt (re : Re) (t : List Nat) (cur : Nat) : Option (Nat × Nat × Caps) :=
  findFrom re ((t.take cur).reverse) (t.drop cur) cur

/-- Cursor advancement of `find_iter`: past the match, or one byte forward
after an empty match. -/
def adv (s e : Nat) : Nat := if s < e then e else e + 1

/-- All non-overlapping matches, scanning left to right (`find_iter`). -/
def findIterFuel (re : Re) (t : List Nat) : Nat → Nat → List (Nat × Nat × Caps)
  | 0, _ => []
  | Nat.succ f, cur =>
    match findNextAt re t cur with
    | none => []
    | some (s, e, caps) => (s, e, caps) :: findIterFuel re t f (adv s e)

def findIter (re : Re) (t : List Nat) : List (Nat × Nat × Caps) :=
  findIterFuel re t (t.length + 2) 0

/-! ### Replacement templates -/

/-- A piece of a replacement template: literal bytes or `$group`. -/
inductive TPart where
  | s : List Nat → TPart
  | g : Nat → TPart

abbrev Tmpl := List TPart

def lookupCap (caps : Caps) (i : Nat) : Option (Nat × Nat) :=
  match caps with
  | [] => none
  | (j, s, e) :: rest => if j = i then some (s, e) else lookupCap rest i

/-- Expand a template against the original text and the match's captures
(an unset group expands to the empty string, as in the `regex` crates). -/
def expandT (tmpl : Tmpl) (t : List Nat) (caps : Caps) : List Nat :=
  tmpl.foldr
    (fun p acc =>
      (match p with
        | .s l => l
        | .g i =>
          match lookupCap caps i with
          | some (s, e) => sliceB t s e
          | none => []) ++ acc)
    []

/-- `Regex::replace_all`: scan-and-emit loop, replacing each non-overlapping
match as it is found. -/
def replaceAllGo (re : Re) (tmpl : Tmpl) (t : List Nat) : Nat → Nat → List Nat
  | 0, cur => sliceFrom t cur
  | Nat.succ f, cur =>
    match findNextAt re t cur with
    | none => sliceFrom t cur
    | some (s, e, caps) =>
      sliceB t cur s ++ expandT tmpl t caps ++ sliceB t e (adv s e) ++
        replaceAllGo re tmpl t f (adv s e)

def replaceAllRe (re : Re) (tmpl : Tmpl) (t : List Nat) : List Nat :=
  replaceAllGo re tmpl t (t.length + 2) 0

/-- `Regex::replace`: replaces only the first match. -/
def replaceRe (re : Re) (tmpl : Tmpl) (t : List Nat) : List Nat :=
  match findNextAt re t 0 with
  | none => t
  | some (s, e, caps) => sliceB t 0 s ++ expandT tmpl t caps ++ sliceFrom t e

/-- Specification-side splice: rewrite the text by replacing exactly the
matches of the given list, each at its own span, left to right. -/
def spliceAll (t : List Nat) (tmpl : Tmpl) : Nat → List (Nat × Nat × Caps) → List Nat
  | cur, [] => sliceFrom t cur
  | cur, (s, e, caps) :: ms =>
    sliceB t cur s ++ expandT tmpl t caps ++ sliceB t e (adv s e) ++
      spliceAll t tmpl (adv s e) ms

/-! ### The regex patterns of `replacer.rs`, transliterated

Helper pieces used across the patterns. -/

/-- Concatenation of a list of regexes. -/
def rcat (l : List Re) : Re := l.foldr Re.cat Re.eps

/-- The literal regex for an ASCII string. -/
def rstr (s : String) : Re := rcat (s.data.map (fun c => Re.lit c.toNat))

/-- `[0-9a-zA-Z]` -/
def alnumCls : Re := .cls false [(48, 57), (65, 90), (97, 122)]

/-- `[0-9]` -/
def digitCls : Re := .cls false [(48, 57)]

/-- `[a-zA-Z]` -/
def alphaCls : Re := .cls false [(65, 90), (97, 122)]

/-- `[a-zA-Z_]` -/
def alphaUscCls : Re := .cls false [(95, 95), (65, 90), (97, 122)]

/-- `[a-zA-Z0-9_]` -/
def wordCls : Re := .cls false [(95, 95), (48, 57), (65, 90), (97, 122)]

/-- `[^=&]` -/
def notEqAmpCls : Re := .cls true [(61, 61), (38, 38)]

/-- `[a-zA-Z0-9%-]` -/
def amazonSegCls : Re := .cls false [(37, 37), (45, 45), (48, 57), (65, 90), (97, 122)]

/-- `[a-zA-Z0-9%+-]` -/
def amazonKwCls : Re := .cls false [(37, 37), (43, 43), (45, 45), (48, 57), (65, 90), (97, 122)]

/-- `X+` -/
def rplus (r : Re) : Re := .cat r (.star r)

/-- `https?://` -/
def schemeRe : Re := rcat [rstr "http", .opt (.lit 115), rstr "://"]

/-- `(https?://|(?<![a-zA-Z])|^)` — the boundary group shared by all patterns. -/
def boundaryRe : Re := .alt schemeRe (.alt .nlbAlpha .bos)

/-- `\??(?:&?[^=&]*=[^=&]*)*` — the trailing query-parameter eater. -/
def paramEater : Re :=
  .cat (.opt (.lit 63))
    (.star (rcat [.opt (.lit 38), .star notEqAmpCls, .lit 61, .star notEqAmpCls]))

/-- `BSHORT_REGEX`: note that the boundary group carries its own `?` here,
so it is optional. -/
def BSHORT_REGEX : Re :=
  rcat [.opt boundaryRe, .alt (rstr "b23.tv") (rstr "bili2233.cn"), .lit 47,
    rplus alnumCls, .opt (.lit 47), paramEater]

/-- `BVIDEO_REGEX` (the `url` capture is never referenced, so it is modelled
as plain grouping). -/
def BVIDEO_REGEX : Re :=
  rcat [boundaryRe, .opt (rstr "www."), rstr "bilibili.com/video/",
    rplus alnumCls, .opt (.lit 47), paramEater]

/-- `YOUTUBE_REGEX` -/
def YOUTUBE_REGEX : Re :=
  rcat [boundaryRe, .opt (rstr "www."), .alt (rstr "youtube.com") (rstr "youtu.be"),
    .lit 47, .alt (rstr "watch") (rplus alphaUscCls), paramEater]

/-- `BARTICLE_REGEX`; group 1 is `cvid`. -/
def BARTICLE_REGEX : Re :=
  rcat [boundaryRe, .opt (rstr "www."), rstr "bilibili.com/read/mobile/",
    .group 1 (rplus digitCls), paramEater]

/-- `BOPUS_REGEX`; group 1 is `opus_id`. -/
def BOPUS_REGEX : Re :=
  rcat [boundaryRe, .opt (.cat (.alt (rstr "www") (rstr "m")) (.lit 46)),
    rstr "bilibili.com/opus/", .group 1 (rplus digitCls), paramEater]

/-- `(com|co(\.[a-zA-Z]+)?)` — amazon TLD alternation. -/
def amazonTld : Re :=
  .alt (rstr "com") (.cat (rstr "co") (.opt (.cat (.lit 46) (rplus alphaCls))))

/-- `AMAZON_REGEX`; group 1 is `domain`, group 2 is `path`. -/
def AMAZON_REGEX : Re :=
  rcat [.group 1 (rcat [boundaryRe, .opt (rstr "www."), rstr "amazon.",
      amazonTld, .lit 47]),
    rplus amazonSegCls, .lit 47,
    .group 2 (rcat [rstr "dp/", rplus alnumCls, .opt (.lit 47)]), paramEater]

/-- `AMAZON_SEARCH_REGEX`; group 1 is `domain`, group 2 is `keyword`.  Its
trailing eater has no leading `\??`. -/
def AMAZON_SEARCH_REGEX : Re :=
  rcat [.group 1 (rcat [boundaryRe, .opt (rstr "www."), rstr "amazon.",
      amazonTld, rstr "/s"]),
    .group 2 (rcat [.lit 63, rstr "k=", rplus amazonKwCls]),
    .star (rcat [.opt (.lit 38), .star notEqAmpCls, .lit 61, .star notEqAmpCls])]

/-- `TWITTER_REGEX`; group 1 is `path`. -/
def TWITTER_REGEX : Re :=
  rcat [boundaryRe, .opt (.alt (rstr "www") (rstr "c.")), .opt (rstr "vx"),
    rstr "twitter.com",
    .group 1 (rcat [.lit 47, rplus wordCls, rstr "/status/", rplus digitCls]),
    paramEater]

/-- `TWITTER_X_REGEX`; group 1 is `path`. -/
def TWITTER_X_REGEX : Re :=
  rcat [boundaryRe, .opt (rstr "www."), .opt (rstr "fixup"), rstr "x.com",
    .group 1 (rcat [.lit 47, rplus wordCls, rstr "/status/", rplus digitCls]),
    paramEater]

/-- `WEIXIN_REGEX` -/
def WEIXIN_REGEX : Re :=
  rcat [boundaryRe, rstr "mp.weixin.qq.com/s", paramEater]

/-- `JD_REGEX`; group 1 is `url`. -/
def JD_REGEX : Re :=
  rcat [.group 1 (rcat [boundaryRe, rstr "item.", .opt (rstr "m."),
      rstr "jd.com/product/", rplus digitCls, rstr ".html"]), paramEater]

/-- `TWITTER_SHORT_REGEX` -/
def TWITTER_SHORT_REGEX : Re :=
  rcat [boundaryRe, rstr "t.co/", rplus alnumCls, .opt (.lit 47), paramEater]

/-- `TIKTOK_SHARE_REGEX` -/
def TIKTOK_SHARE_REGEX : Re :=
  rcat [boundaryRe, .alt (rstr "vm") (.alt (rstr "vt") (rstr "www")),
    rstr ".tiktok.com/", .opt (rstr "t/"), rplus alnumCls, .opt (.lit 47),
    paramEater]

/-! ### `form_urlencoded` query parsing and serialization (byte level)

`Url::query_pairs` percent-decodes (with `+` as space); the serializer used
by `remove_pairs_if_key` re-encodes with the form-urlencoded byte set
(alphanumerics and `*-._` kept, space as `+`, everything else `%XX` with
uppercase hex).  Pairs are modelled as raw byte sequences. -/

def hexVal (b : Nat) : Option Nat :=
  if 48 ≤ b ∧ b ≤ 57 then some (b - 48)
  else if 97 ≤ b ∧ b ≤ 102 then some (b - 87)
  else if 65 ≤ b ∧ b ≤ 70 then some (b - 55)
  else none

def hexDigit (n : Nat) : Nat := if n < 10 then 48 + n else 55 + n

/-- Percent-decoding with `+` decoded as space, invalid escapes left as-is. -/
def pctDecode : List Nat → List Nat
  | [] => []
  | b :: rest =>
    if b = 43 then 32 :: pctDecode rest
    else if b = 37 then
      match rest with
      | h :: l :: rest' =>
        match hexVal h, hexVal l with
        | some a, some c => (16 * a + c) :: pctDecode rest'
        | _, _ => 37 :: pctDecode (h :: l :: rest')
      | [h] => 37 :: pctDecode [h]
      | [] => [37]
    else b :: pctDecode rest

/-- Bytes kept verbatim by the form-urlencoded serializer. -/
def keptByte (b : Nat) : Bool :=
  inRanges b [(48, 57), (65, 90), (97, 122), (42, 42), (45, 45), (46, 46), (95, 95)]

def encByte (b : Nat) : List Nat :=
  if keptByte b then [b]
  else if b = 32 then [43]
  else [37, hexDigit (b / 16), hexDigit (b % 16)]

def encBytes (l : List Nat) : List Nat := l.flatMap encByte

/-- Split a query string at `&`, keeping empty pieces (they are filtered by
the parser, as `form_urlencoded::parse` skips empty sequences). -/
def splitAmp : List Nat → List (List Nat)
  | [] => [[]]
  | b :: rest =>
    let s := splitAmp rest
    if b = 38 then [] :: s
    else (b :: s.headD []) :: s.tail

/-- Split a `k=v` sequence at the first `=` (no `=` gives an empty value). -/
def splitEq : List Nat → List Nat × List Nat
  | [] => ([], [])
  | b :: rest =>
    if b = 61 then ([], rest)
    else (b :: (splitEq rest).1, (splitEq rest).2)

/-- One `&`-separated sequence: skipped when empty, split at the first `=`
and percent-decoded otherwise. -/
def parseSeg (seg : List Nat) : Option (List Nat × List Nat) :=
  if seg.isEmpty then none
  else some (pctDecode (splitEq seg).1, pctDecode (splitEq seg).2)

/-- `form_urlencoded::parse`: pairs of decoded bytes, in order. -/
def parseQuery (q : List Nat) : List (List Nat × List Nat) :=
  (splitAmp q).filterMap parseSeg

/-- `form_urlencoded::Serializer`: `append_pair` for each pair, joined with
`&`. -/
def serializePairs (l : List (List Nat × List Nat)) : List Nat :=
  (l.map (fun p => encBytes p.1 ++ 61 :: encBytes p.2)).intersperse [38] |>.flatten

/-- One serialized pair, as `append_pair` emits it. -/
def segOf (p : List Nat × List Nat) : List Nat :=
  encBytes p.1 ++ 61 :: encBytes p.2

/-! ### The `Url` type (the fragment of the `url` crate used by `replacer.rs`)

`Url::from_str` is modelled for absolute `http(s)` URLs whose serialization
is already in normal form (all concrete inputs below are): it splits scheme,
host (lowercased), path (empty path becomes `/`), raw query and raw
fragment, and fails on any string without an `http://`/`https://` prefix —
in particular on every scheme-less regex match, which is what
`replacer.rs` relies on when it skips unparsable matches. -/

structure Url where
  scheme : List Nat
  host : List Nat
  path : List Nat
  query : Option (List Nat)
  fragment : Option (List Nat)
deriving Repr, DecidableEq

def toLowerByte (b : Nat) : Nat := if 65 ≤ b ∧ b ≤ 90 then b + 32 else b

/-- Split off the prefix up to the first byte satisfying `p`. -/
def spanNot (p : Nat → Bool) : List Nat → List Nat × List Nat
  | [] => ([], [])
  | b :: rest =>
    if p b then ([], b :: rest)
    else
      let (pre, post) := spanNot p rest
      (b :: pre, post)

def urlFromStr (s : List Nat) : Option Url :=
  let parseAfter (scheme : List Nat) (rest : List Nat) : Option Url :=
    let (host, r1) := spanNot (fun b => b = 47 ∨ b = 63 ∨ b = 35) rest
    if host.isEmpty then none
    else
      let (path, r2) := spanNot (fun b => b = 63 ∨ b = 35) r1
      let (query, r3) :=
        match r2 with
        | 63 :: qrest =>
          let (q, rr) := spanNot (fun b => b = 35) qrest
          (some q, rr)
        | _ => (none, r2)
      let fragment :=
        match r3 with
        | 35 :: frest => some frest
        | _ => none
      some { scheme := scheme, host := host.map toLowerByte,
             path := if path.isEmpty then [47] else path,
             query := query, fragment := fragment }
  if s.take 8 = str2b "https://" then parseAfter (str2b "https") (s.drop 8)
  else if s.take 7 = str2b "http://" then parseAfter (str2b "http") (s.drop 7)
  else none

def Url.toString (u : Url) : List Nat :=
  u.scheme ++ str2b "://" ++ u.host ++ u.path ++
    (match u.query with | some q => 63 :: q | none => []) ++
    (match u.fragment with | some f => 35 :: f | none => [])

/-- `Url::query_pairs` (on `None` the query is the empty string). -/
def Url.queryPairs (u : Url) : List (List Nat × List Nat) :=
  parseQuery (u.query.getD [])

/-- `Url::set_query` (the queries assigned by `replacer.rs` are serializer
output, which the crate stores unchanged). -/
def Url.setQuery (u : Url) (q : Option (List Nat)) : Url :=
  { u with query := q }

/-- `remove_pairs_if_key`: re-serializes the pairs whose key does not satisfy
the predicate; an empty serialization clears the query. -/
def Url.removePairsIfKey (u : Url) (pred : List Nat → Bool) : Url :=
  let q := serializePairs (u.queryPairs.filter (fun p => !pred p.1))
  u.setQuery (if q = [] then none else some q)

/-- `keep_pairs_only_in`. -/
def Url.keepPairsOnlyIn (u : Url) (keys : List (List Nat)) : Url :=
  u.removePairsIfKey (fun k => !keys.contains k)

/-- `trim_youtube_link`. -/
def trimYoutubeLink (u : Url) : Url :=
  u.keepPairsOnlyIn [str2b "v", str2b "list", str2b "index", str2b "t"]

/-- `trim_bili_link`. -/
def trimBiliLink (u : Url) : Url :=
  u.keepPairsOnlyIn [str2b "p", str2b "t"]

/-! ### The rewrite rules -/

/-- Pipeline errors: a failed redirect resolution (propagated with `?` from
`get_redirect_url`) or a `String::replace_range` panic (range out of
bounds). -/
inductive PErr where
  | resolveFail : PErr
  | panicked : PErr
deriving Repr, DecidableEq

/-- The redirect resolver as seen by the rules: the observable behaviour of
`get_redirect_url` on a matched slice (`Ok` final URL or a network error). -/
abbrev Resolver := List Nat → Except Unit Url

def replace_twitter (t : List Nat) : List Nat :=
  replaceRe TWITTER_REGEX [.s (str2b "https://fixupx.com"), .g 1] t

def replace_twitter_x (t : List Nat) : List Nat :=
  replaceRe TWITTER_X_REGEX [.s (str2b "https://fixupx.com"), .g 1] t

def replace_jd (t : List Nat) : List Nat :=
  replaceAllRe JD_REGEX [.g 1] t

def replace_amazon (t : List Nat) : List Nat :=
  replaceAllRe AMAZON_REGEX [.g 1, .g 2] t

def replace_amazon_search (t : List Nat) : List Nat :=
  replaceAllRe AMAZON_SEARCH_REGEX [.g 1, .g 2] t

def replace_barticle (t : List Nat) : List Nat :=
  replaceAllRe BARTICLE_REGEX [.s (str2b "https://www.bilibili.com/read/cv"), .g 1] t

def replace_bopus (t : List Nat) : List Nat :=
  replaceAllRe BOPUS_REGEX [.s (str2b "https://t.bilibili.com/"), .g 1] t

/-- `replace_weixin`: iterates the matches found on the original text,
skips any match that does not parse as a URL, and `replace_range`s the
allowlist-filtered serialization into the working string at the match's
original byte range. -/
def weixinKeys : List (List Nat) :=
  [str2b "__biz", str2b "mid", str2b "idx", str2b "sn"]

def replace_weixin_go (t : List Nat) :
    List (Nat × Nat × Caps) → List Nat → Except PErr (List Nat)
  | [], acc => .ok acc
  | (s, e, _) :: ms, acc =>
    match urlFromStr (sliceB t s e) with
    | none => replace_weixin_go t ms acc
    | some url =>
      match replaceRange acc s e ((url.keepPairsOnlyIn weixinKeys).toString) with
      | none => .error .panicked
      | some acc' => replace_weixin_go t ms acc'

def replace_weixin (t : List Nat) : Except PErr (List Nat) :=
  replace_weixin_go t (findIter WEIXIN_REGEX t) t

/-- Shared shape of `replace_youtube` / `replace_btrack`: collect
`(range, replacement)` for every parsable match, then apply them in order
with `replace_range` (always at original-text offsets). -/
def applyRanges : List (Nat × Nat × List Nat) → List Nat → Except PErr (List Nat)
  | [], acc => .ok acc
  | (s, e, r) :: rs, acc =>
    match replaceRange acc s e r with
    | none => .error .panicked
    | some acc' => applyRanges rs acc'

def collectTrims (trim : Url → Url) (t : List Nat)
    (ms : List (Nat × Nat × Caps)) : List (Nat × Nat × List Nat) :=
  ms.filterMap
    (fun m =>
      match urlFromStr (sliceB t m.1 m.2.1) with
      | none => none
      | some url => some (m.1, m.2.1, (trim url).toString))

def replace_youtube (t : List Nat) : Except PErr (List Nat) :=
  applyRanges (collectTrims trimYoutubeLink t (findIter YOUTUBE_REGEX t)) t

def replace_btrack (t : List Nat) : Except PErr (List Nat) :=
  applyRanges (collectTrims trimBiliLink t (findIter BVIDEO_REGEX t)) t

/-- `replace_bshort`: every match is resolved over the network (`?`
propagates a failure), trimmed, and written back at its original range. -/
def replace_bshort_go (r : Resolver) (t : List Nat) :
    List (Nat × Nat × Caps) → List Nat → Except PErr (List Nat)
  | [], acc => .ok acc
  | (s, e, _) :: ms, acc =>
    match r (sliceB t s e) with
    | .error _ => .error .resolveFail
    | .ok url =>
      match replaceRange acc s e ((trimBiliLink url).toString) with
      | none => .error .panicked
      | some acc' => replace_bshort_go r t ms acc'

def replace_bshort (r : Resolver) (t : List Nat) : Except PErr (List Nat) :=
  replace_bshort_go r t (findIter BSHORT_REGEX t) t

def replace_twitter_short_go (r : Resolver) (t : List Nat) :
    List (Nat × Nat × Caps) → List Nat → Except PErr (List Nat)
  | [], acc => .ok acc
  | (s, e, _) :: ms, acc =>
    match r (sliceB t s e) with
    | .error _ => .error .resolveFail
    | .ok url =>
      match replaceRange acc s e url.toString with
      | none => .error .panicked
      | some acc' => replace_twitter_short_go r t ms acc'

def replace_twitter_short (r : Resolver) (t : List Nat) : Except PErr (List Nat) :=
  replace_twitter_short_go r t (findIter TWITTER_SHORT_REGEX t) t

def replace_tiktok_share_go (r : Resolver) (t : List Nat) :
    List (Nat × Nat × Caps) → List Nat → Except PErr (List Nat)
  | [], acc => .ok acc
  | (s, e, _) :: ms, acc =>
    match r (sliceB t s e) with
    | .error _ => .error .resolveFail
    | .ok url =>
      match replaceRange acc s e (url.setQuery none).toString with
      | none => .error .panicked
      | some acc' => replace_tiktok_share_go r t ms acc'

def replace_tiktok_share (r : Resolver) (t : List Nat) : Except PErr (List Nat) :=
  replace_tiktok_share_go r t (findIter TIKTOK_SHARE_REGEX t) t

/-- `replace_all`: the full pipeline, in the order of `replacer.rs`
lines 95–117. -/
def replace_all (r : Resolver) (t : List Nat) : Except PErr (List Nat) := do
  let t ← replace_bshort r t
  let t ← replace_twitter_short r t
  let t ← replace_tiktok_share r t
  let t ← replace_youtube t
  let t ← replace_btrack t
  let t := replace_barticle t
  let t := replace_bopus t
  let t := replace_twitter t
  let t := replace_twitter_x t
  let t := replace_amazon t
  let t := replace_amazon_search t
  let t ← replace_weixin t
  let t := replace_jd t
  return t

/-! ### The redirect policy of `CLIENT_REDIRECT_ONCE` and `get_redirect_url`

A server is modelled as a partial redirect map: `some next` when the URL
answers with a redirect to `next`, `none` for a final response.  `reqwest`
consults the policy each time a response redirects, passing the list of
previously visited URLs (the original URL included); on `stop`, the
response URL of the last performed request is returned by `resp.url()`. -/

/-- The custom policy closure of `replacer.rs` lines 18–24: follow iff
`attempt.previous().len() <= 1`. -/
def redirectOncePolicy (previous : List (List Nat)) : Bool :=
  !(previous.length > 1 : Bool)

/-- The client's request loop under a redirect policy, fuel-bounded. -/
def followLoop (server : List Nat → Option (List Nat)) :
    Nat → List Nat → List (List Nat) → List Nat
  | 0, current, _ => current
  | Nat.succ f, current, previous =>
    match server current with
    | none => current
    | some next =>
      if redirectOncePolicy (previous ++ [current]) then
        followLoop server f next (previous ++ [current])
      else current

/-- `get_redirect_url`: issue one GET with the shared client and return the
final response URL. -/
def get_redirect_url (server : List Nat → Option (List Nat)) (u : List Nat) :
    List Nat :=
  followLoop server 8 u []

/-! ### The QR pipeline `replace_qrcode`

Detection (`rqrr`), QR encoding (`qrcode`) and raster compositing (`image`)
are external: detection results enter as the grid list, encoding as a
partial function (failing when the payload cannot be encoded at level L),
rendering and `imageops::overlay` as total functions on abstract image
types.  The control flow, counting and accumulation mirror
`replacer.rs` lines 119–173. -/

structure QGrid where
  b0 : Int × Int   -- top_left
  b1 : Int × Int   -- top_right
  b2 : Int × Int   -- bottom_right
  b3 : Int × Int   -- bottom_left
  decode : Except Unit (List Nat)

inductive QErr where
  | decodeFail : QErr
  | rewriteFail : PErr → QErr
  | encodeFail : QErr
deriving Repr, DecidableEq

def replace_qrcode_go {Img Qr QrImg : Type}
    (rewrite : List Nat → Except PErr (List Nat))
    (encodeQr : List Nat → Option Qr)
    (render : Qr → Int → Int → QrImg)
    (overlay : Img → QrImg → Int × Int → Img) :
    List QGrid → Img → List (List Nat) → Nat →
      Except QErr (Option (Img × List (List Nat)))
  | [], img, urls, cnt => .ok (if cnt = 0 then none else some (img, urls))
  | g :: gs, img, urls, cnt =>
    let width := g.b1.1 - g.b0.1
    let height := g.b3.2 - g.b0.2
    match g.decode with
    | .error _ => .error .decodeFail
    | .ok content =>
      match rewrite content with
      | .error e => .error (.rewriteFail e)
      | .ok replaced =>
        if replaced = content then
          replace_qrcode_go rewrite encodeQr render overlay gs img urls cnt
        else
          match encodeQr replaced with
          | none => .error .encodeFail
          | some qr =>
            replace_qrcode_go rewrite encodeQr render overlay gs
              (overlay img (render qr width height) (g.b0.1 - 5, g.b0.2 - 5))
              (urls ++ [replaced]) (cnt + 1)

def replace_qrcode {Img Qr QrImg : Type}
    (rewrite : List Nat → Except PErr (List Nat))
    (encodeQr : List Nat → Option Qr)
    (render : Qr → Int → Int → QrImg)
    (overlay : Img → QrImg → Int × Int → Img)
    (grids : List QGrid) (img : Img) :
    Except QErr (Option (Img × List (List Nat))) :=
  if grids.isEmpty then .ok none
  else replace_qrcode_go rewrite encodeQr render overlay grids img [] 0

/-- The payloads of the grids that `replace_qrcode` actually replaces (those
that decode and whose rewrite succeeds with a different string), in
detection order. -/
def changedPayloads (rewrite : List Nat → Except PErr (List Nat))
    (gs : List QGrid) : List (List Nat) :=
  gs.filterMap
    (fun g =>
      match g.decode with
      | .ok c =>
        match rewrite c with
        | .ok c' => if c' = c then none else some c'
        | .error _ => none
      | .error _ => none)

/-! ### Concrete instances used by witnesses and counterexamples -/

/-- A resolver whose every lookup fails (any resolver works for the inputs
below with no short-link matches; this one also witnesses propagation). -/
def rfail : Resolver := fun _ => .error ()

/-- A two-hop redirect chain a → b → c. -/
def chain2 : List Nat → Option (List Nat) := fun s =>
  if s = str2b "a" then some (str2b "b")
  else if s = str2b "b" then some (str2b "c")
  else none

/-- Text with two twitter status URLs (two `TWITTER_REGEX` matches). -/
def twoTwitter : List Nat :=
  str2b "https://twitter.com/a/status/1 https://twitter.com/b/status/2"

/-- Three weixin matches: the first parses and shrinks by 37 bytes when its
query is filtered, the second parses, the third (scheme-less) does not. -/
def weixinPanicInput : List Nat :=
  str2b "https://mp.weixin.qq.com/s?chksm=zzzzzzzzzzzzzzzzzzzzzzzzzzzzzz&https://mp.weixin.qq.com/s-mp.weixin.qq.com/s"

/-- A scheme-less weixin match followed by a parsable one (separated by `&&`
so that the query eater of the first match stops). -/
def weixinSkipInput : List Nat :=
  str2b "mp.weixin.qq.com/s&&https://mp.weixin.qq.com/s?chksm=zz"

/-- Two youtube matches whose trimmed replacements are one byte shorter, so
the second `replace_range` lands past the end of the shrunk string. -/
def youtubePanicInput : List Nat :=
  str2b "https://www.youtube.com/watch? https://www.youtube.com/watch?"

/-- A rewrite used by the QR witness: changes payload `x`, keeps all others. -/
def qrWitRewrite : List Nat → Except PErr (List Nat) := fun c =>
  .ok (if c = str2b "x" then str2b "y" else c)

def qrWitGrid (payload : List Nat) : QGrid :=
  { b0 := (0, 0), b1 := (10, 0), b2 := (10, 10), b3 := (0, 10),
    decode := .ok payload }

/-! ## Theorems -/

/-! ### Matching machinery: the scan-and-emit replacers splice the
`find_iter` match list -/

theorem sliceB_adv_append (t : List Nat) (s e : Nat) :
    sliceB t e (adv s e) ++ sliceFrom t (adv s e) = sliceFrom t e := by
  unfold adv
  split
  · simp [sliceB, sliceFrom]
  · have h1 : sliceB t e (e + 1) = (t.drop e).take 1 := by
      simp [sliceB]
    have h2 : sliceFrom t (e + 1) = (t.drop e).drop 1 := by
      simp [sliceFrom, List.drop_drop, Nat.add_comm]
    rw [h1, h2, List.take_append_drop]
    rfl

theorem replaceAllGo_eq_splice (re : Re) (tmpl : Tmpl) (t : List Nat) :
    ∀ f cur, replaceAllGo re tmpl t f cur
      = spliceAll t tmpl cur (findIterFuel re t f cur) := by
  intro f
  induction f with
  | zero => intro cur; simp [replaceAllGo, findIterFuel, spliceAll]
  | succ f ih =>
    intro cur
    cases h : findNextAt re t cur with
    | none => simp [replaceAllGo, findIterFuel, h, spliceAll]
    | some m =>
      obtain ⟨s, e, caps⟩ := m
      simp [replaceAllGo, findIterFuel, h, spliceAll, ih]

theorem replaceAllRe_eq_splice (re : Re) (tmpl : Tmpl) (t : List Nat) :
    replaceAllRe re tmpl t = spliceAll t tmpl 0 (findIter re t) :=
  replaceAllGo_eq_splice re tmpl t (t.length + 2) 0

theorem replaceRe_eq_splice_take1 (re : Re) (tmpl : Tmpl) (t : List Nat) :
    replaceRe re tmpl t = spliceAll t tmpl 0 ((findIter re t).take 1) := by
  unfold replaceRe findIter
  rw [show t.length + 2 = Nat.succ (t.length + 1) from rfl]
  cases h : findNextAt re t 0 with
  | none => simp [findIterFuel, h, spliceAll, sliceFrom]
  | some m =>
    obtain ⟨s, e, caps⟩ := m
    simp only [findIterFuel, h, List.take_succ_cons, List.take_zero, spliceAll]
    rw [List.append_assoc, List.append_assoc, sliceB_adv_append]
    simp [List.append_assoc]

set_option maxRecDepth 100000

/-! ### C1 -/

/-- C1 counterexample: the claim says every rule replaces every
non-overlapping match, but `replace_twitter` (built on `Regex::replace`,
not `replace_all`) rewrites only the first one.  On a text with two
twitter status URLs — `TWITTER_REGEX` finds both matches — the output keeps
the second URL unchanged and differs from the all-matches splice. -/
theorem c1_counterexample :
    (findIter TWITTER_REGEX twoTwitter).length = 2
    ∧ replace_twitter twoTwitter
      = str2b "https://fixupx.com/a/status/1 https://twitter.com/b/status/2"
    ∧ replace_twitter twoTwitter
      ≠ spliceAll twoTwitter [.s (str2b "https://fixupx.com"), .g 1] 0
          (findIter TWITTER_REGEX twoTwitter) :=
  ⟨by decide, rfl, by decide⟩

/-- C1 (amended): the rules applied with `Regex::replace_all`
(`replace_jd`, `replace_amazon`, `replace_amazon_search`,
`replace_barticle`, `replace_bopus`) replace every non-overlapping match
found in left-to-right order, each independently at its own position
(the splice of the full `find_iter` match list); `replace_twitter` and
`replace_twitter_x` use `Regex::replace` and rewrite only the first match,
leaving every later occurrence unchanged. -/
theorem c1_amended (t : List Nat) :
    replace_jd t = spliceAll t [.g 1] 0 (findIter JD_REGEX t)
    ∧ replace_amazon t = spliceAll t [.g 1, .g 2] 0 (findIter AMAZON_REGEX t)
    ∧ replace_amazon_search t
      = spliceAll t [.g 1, .g 2] 0 (findIter AMAZON_SEARCH_REGEX t)
    ∧ replace_barticle t
      = spliceAll t [.s (str2b "https://www.bilibili.com/read/cv"), .g 1] 0
          (findIter BARTICLE_REGEX t)
    ∧ replace_bopus t
      = spliceAll t [.s (str2b "https://t.bilibili.com/"), .g 1] 0
          (findIter BOPUS_REGEX t)
    ∧ replace_twitter t
      = spliceAll t [.s (str2b "https://fixupx.com"), .g 1] 0
          ((findIter TWITTER_REGEX t).take 1)
    ∧ replace_twitter_x t
      = spliceAll t [.s (str2b "https://fixupx.com"), .g 1] 0
          ((findIter TWITTER_X_REGEX t).take 1) :=
  ⟨replaceAllRe_eq_splice _ _ t, replaceAllRe_eq_splice _ _ t,
    replaceAllRe_eq_splice _ _ t, replaceAllRe_eq_splice _ _ t,
    replaceAllRe_eq_splice _ _ t, replaceRe_eq_splice_take1 _ _ t,
    replaceRe_eq_splice_take1 _ _ t⟩

/-! ### C3 machinery: the form-urlencoded serializer round-trips -/

theorem hexDigit_bound (n : Nat) : 48 ≤ hexDigit n ∧ hexDigit n ≠ 61 := by
  unfold hexDigit
  split <;> omega

theorem hexVal_hexDigit (n : Nat) (h : n < 16) : hexVal (hexDigit n) = some n := by
  interval_cases n <;> decide

theorem encByte_mem (b x : Nat) (hx : x ∈ encByte b) : x ≠ 38 ∧ x ≠ 61 := by
  unfold encByte at hx
  by_cases hk : keptByte b
  · rw [if_pos hk] at hx
    simp at hx
    subst hx
    constructor <;> rintro rfl <;> exact absurd hk (by decide)
  · rw [if_neg hk] at hx
    by_cases h32 : b = 32
    · rw [if_pos h32] at hx
      simp at hx
      subst hx
      decide
    · rw [if_neg h32] at hx
      simp at hx
      rcases hx with rfl | rfl | rfl
      · decide
      · have := hexDigit_bound (b / 16)
        omega
      · have := hexDigit_bound (b % 16)
        omega

theorem pctDecode_cons (b : Nat) (h43 : b ≠ 43) (h37 : b ≠ 37)
    (rest : List Nat) : pctDecode (b :: rest) = b :: pctDecode rest := by
  rw [pctDecode.eq_def]
  dsimp only
  rw [if_neg h43, if_neg h37]

theorem pctDecode_encByte (b : Nat) (hb : b < 256) (rest : List Nat) :
    pctDecode (encByte b ++ rest) = b :: pctDecode rest := by
  unfold encByte
  by_cases hk : keptByte b
  · have h43 : b ≠ 43 := by rintro rfl; exact absurd hk (by decide)
    have h37 : b ≠ 37 := by rintro rfl; exact absurd hk (by decide)
    rw [if_pos hk, List.cons_append, List.nil_append, pctDecode_cons b h43 h37]
  · rw [if_neg hk]
    by_cases h32 : b = 32
    · subst h32
      rw [if_pos rfl]
      rw [List.cons_append, List.nil_append, pctDecode.eq_def]
      dsimp only
      rw [if_pos rfl]
    · rw [if_neg h32]
      have hd : b / 16 < 16 := by omega
      have hm : b % 16 < 16 := by omega
      rw [List.cons_append, List.cons_append, List.cons_append,
        List.nil_append, pctDecode.eq_def]
      dsimp only
      rw [if_neg (by decide : ¬(37 : Nat) = 43), if_pos rfl]
      rw [hexVal_hexDigit _ hd, hexVal_hexDigit _ hm]
      dsimp only
      congr 1
      omega

theorem pctDecode_encBytes_append (l : List Nat) (h : ∀ b ∈ l, b < 256)
    (rest : List Nat) :
    pctDecode (encBytes l ++ rest) = l ++ pctDecode rest := by
  induction l with
  | nil => simp [encBytes]
  | cons b l ih =>
    have hb : b < 256 := h b (List.mem_cons_self b l)
    have hl : ∀ x ∈ l, x < 256 := fun x hx => h x (List.mem_cons_of_mem b hx)
    simp only [encBytes, List.flatMap_cons, List.append_assoc]
    rw [show (l.flatMap encByte) = encBytes l from rfl,
      pctDecode_encByte b hb, ih hl]
    rfl

theorem pctDecode_encBytes (l : List Nat) (h : ∀ b ∈ l, b < 256) :
    pctDecode (encBytes l) = l := by
  have := pctDecode_encBytes_append l h []
  simpa [pctDecode] using this

theorem encBytes_mem (l : List Nat) (x : Nat) (hx : x ∈ encBytes l) :
    x ≠ 38 ∧ x ≠ 61 := by
  unfold encBytes at hx
  rw [List.mem_flatMap] at hx
  obtain ⟨b, _, hb⟩ := hx
  exact encByte_mem b x hb

theorem splitEq_append (k v : List Nat) (hk : ∀ x ∈ k, x ≠ 61) :
    splitEq (k ++ 61 :: v) = (k, v) := by
  induction k with
  | nil => simp [splitEq]
  | cons b k ih =>
    have hb : b ≠ 61 := hk b (List.mem_cons_self b k)
    have hk' : ∀ x ∈ k, x ≠ 61 := fun x hx => hk x (List.mem_cons_of_mem b hx)
    simp [splitEq, hb, ih hk']

theorem splitAmp_ne_nil (l : List Nat) : splitAmp l ≠ [] := by
  cases l with
  | nil => simp [splitAmp]
  | cons b rest =>
    simp only [splitAmp]
    split <;> simp

theorem splitAmp_no38 (l : List Nat) (h : ∀ x ∈ l, x ≠ 38) :
    splitAmp l = [l] := by
  induction l with
  | nil => rfl
  | cons b rest ih =>
    have hb : b ≠ 38 := h b (List.mem_cons_self b rest)
    have h' : ∀ x ∈ rest, x ≠ 38 := fun x hx => h x (List.mem_cons_of_mem b hx)
    simp [splitAmp, hb, ih h']

theorem splitAmp_append (seg rest : List Nat) (h : ∀ x ∈ seg, x ≠ 38) :
    splitAmp (seg ++ 38 :: rest) = seg :: splitAmp rest := by
  induction seg with
  | nil => simp [splitAmp]
  | cons b seg ih =>
    have hb : b ≠ 38 := h b (List.mem_cons_self b seg)
    have h' : ∀ x ∈ seg, x ≠ 38 := fun x hx => h x (List.mem_cons_of_mem b hx)
    simp [splitAmp, hb, ih h']

theorem serializePairs_nil : serializePairs [] = [] := rfl

theorem serializePairs_single (p : List Nat × List Nat) :
    serializePairs [p] = segOf p := by
  simp [serializePairs, segOf, List.intersperse]

theorem serializePairs_cons₂ (p q : List Nat × List Nat)
    (ps : List (List Nat × List Nat)) :
    serializePairs (p :: q :: ps) = segOf p ++ 38 :: serializePairs (q :: ps) := by
  simp [serializePairs, segOf, List.intersperse_cons_cons]

theorem segOf_no38 (p : List Nat × List Nat) : ∀ x ∈ segOf p, x ≠ 38 := by
  intro x hx
  unfold segOf at hx
  rcases List.mem_append.mp hx with h | h
  · exact (encBytes_mem _ _ h).1
  · rcases List.mem_cons.mp h with rfl | h
    · decide
    · exact (encBytes_mem _ _ h).1

theorem segOf_ne_nil (p : List Nat × List Nat) : segOf p ≠ [] := by
  unfold segOf
  simp

/-- Parsing one serialized pair recovers it. -/
theorem parse_segOf (p : List Nat × List Nat)
    (h1 : ∀ b ∈ p.1, b < 256) (h2 : ∀ b ∈ p.2, b < 256) :
    parseSeg (segOf p) = some p := by
  unfold parseSeg
  rw [if_neg (by simpa [List.isEmpty_iff] using segOf_ne_nil p)]
  unfold segOf
  rw [splitEq_append _ _ (fun x hx => (encBytes_mem _ _ hx).2)]
  simp [pctDecode_encBytes _ h1, pctDecode_encBytes _ h2]

theorem parseQuery_serializePairs (ps : List (List Nat × List Nat))
    (h : ∀ p ∈ ps, (∀ b ∈ p.1, b < 256) ∧ (∀ b ∈ p.2, b < 256)) :
    parseQuery (serializePairs ps) = ps := by
  induction ps with
  | nil => rfl
  | cons p ps ih =>
    have hp := h p (List.mem_cons_self p ps)
    have h' : ∀ q ∈ ps, (∀ b ∈ q.1, b < 256) ∧ (∀ b ∈ q.2, b < 256) :=
      fun q hq => h q (List.mem_cons_of_mem p hq)
    cases ps with
    | nil =>
      rw [serializePairs_single]
      unfold parseQuery
      rw [splitAmp_no38 _ (segOf_no38 p)]
      rw [List.filterMap_cons, parse_segOf p hp.1 hp.2, List.filterMap_nil]
    | cons q ps' =>
      rw [serializePairs_cons₂]
      unfold parseQuery
      rw [splitAmp_append _ _ (segOf_no38 p)]
      rw [List.filterMap_cons, parse_segOf p hp.1 hp.2]
      rw [show (splitAmp (serializePairs (q :: ps'))).filterMap parseSeg
          = parseQuery (serializePairs (q :: ps')) from rfl, ih h']

theorem serializePairs_eq_nil_iff (ps : List (List Nat × List Nat)) :
    serializePairs ps = [] ↔ ps = [] := by
  constructor
  · intro h
    cases ps with
    | nil => rfl
    | cons p ps =>
      cases ps with
      | nil =>
        rw [serializePairs_single] at h
        exact absurd h (segOf_ne_nil p)
      | cons q ps' =>
        rw [serializePairs_cons₂] at h
        simp at h
  · rintro rfl
    rfl

theorem parseQuery_nil : parseQuery [] = [] := rfl

/-! ### C3 -/

/-- C3: correctness of the allowlist filter
(`keep_pairs_only_in` / `remove_pairs_if_key`).  The filtered URL's query
pairs are exactly the original pairs whose key belongs to the allow-set, in
their original relative order (so every retained key is in the set and no
pair with an allowed key is dropped); the query component is absent exactly
when no pair is retained; scheme, host, path and fragment are untouched.
The function is a pure Lean function, so determinism is definitional.  The
hypothesis states that the decoded pairs are byte sequences (true of every
query decoded from bytes). -/
theorem c3_theorem (u : Url) (S : List (List Nat))
    (h : ∀ p ∈ u.queryPairs, (∀ b ∈ p.1, b < 256) ∧ (∀ b ∈ p.2, b < 256)) :
    (u.keepPairsOnlyIn S).queryPairs
      = u.queryPairs.filter (fun p => S.contains p.1)
    ∧ ((u.keepPairsOnlyIn S).query = none
        ↔ u.queryPairs.filter (fun p => S.contains p.1) = [])
    ∧ (u.keepPairsOnlyIn S).scheme = u.scheme
    ∧ (u.keepPairsOnlyIn S).host = u.host
    ∧ (u.keepPairsOnlyIn S).path = u.path
    ∧ (u.keepPairsOnlyIn S).fragment = u.fragment := by
  have hfl : u.queryPairs.filter (fun p => !((fun k => !S.contains k) p.1))
      = u.queryPairs.filter (fun p => S.contains p.1) := by
    simp
  have hq : (u.keepPairsOnlyIn S).query
      = (if serializePairs (u.queryPairs.filter (fun p => S.contains p.1)) = []
         then none
         else some (serializePairs (u.queryPairs.filter (fun p => S.contains p.1)))) := by
    simp only [Url.keepPairsOnlyIn, Url.removePairsIfKey, Url.setQuery, hfl]
  have hbounds : ∀ p ∈ u.queryPairs.filter (fun p => S.contains p.1),
      (∀ b ∈ p.1, b < 256) ∧ (∀ b ∈ p.2, b < 256) :=
    fun p hp => h p (List.mem_of_mem_filter hp)
  refine ⟨?_, ?_, rfl, rfl, rfl, rfl⟩
  · rw [Url.queryPairs, hq]
    by_cases hnil :
        serializePairs (u.queryPairs.filter (fun p => S.contains p.1)) = []
    · rw [if_pos hnil, (serializePairs_eq_nil_iff _).mp hnil]
      rfl
    · rw [if_neg hnil]
      exact parseQuery_serializePairs _ hbounds
  · rw [hq]
    by_cases hnil :
        serializePairs (u.queryPairs.filter (fun p => S.contains p.1)) = []
    · rw [if_pos hnil, (serializePairs_eq_nil_iff _).mp hnil]
      simp
    · rw [if_neg hnil]
      have hf : u.queryPairs.filter (fun p => S.contains p.1) ≠ [] := by
        intro hf
        exact hnil (by rw [hf]; rfl)
      exact iff_of_false (by simp) hf

/-- C3 witness: the theorem applied to a concrete URL with query
a=1&b=2&a=3 and allow-set containing only a. -/
theorem c3_witness :
    ((Url.mk (str2b "https") (str2b "e.com") [47] (some (str2b "a=1&b=2&a=3")) none).keepPairsOnlyIn
        [str2b "a"]).queryPairs
      = ((Url.mk (str2b "https") (str2b "e.com") [47] (some (str2b "a=1&b=2&a=3")) none).queryPairs.filter
          (fun p => [str2b "a"].contains p.1)) :=
  (c3_theorem (Url.mk (str2b "https") (str2b "e.com") [47]
    (some (str2b "a=1&b=2&a=3")) none) [str2b "a"] (by decide)).1

/-! ### C4 -/

/-- C4: the one-hop bound of the redirect resolver.  With the custom policy
of the shared client (stop as soon as more than one URL has been visited),
the resolved URL is the redirect target of the input when the input
redirects (whatever the rest of the chain does), and the input itself
otherwise; in particular a two-hop chain resolves to the first hop's
target — not the original URL and not the final destination. -/
theorem c4_theorem (server : List Nat → Option (List Nat)) (u0 : List Nat) :
    get_redirect_url server u0 = (server u0).getD u0
    ∧ ∀ u1 u2, server u0 = some u1 → server u1 = some u2 →
        get_redirect_url server u0 = u1 := by
  have hstep : ∀ nxt, followLoop server 7 nxt [u0] = nxt := by
    intro nxt
    show followLoop server (6 + 1) nxt [u0] = nxt
    rw [followLoop]
    cases h2 : server nxt with
    | none => rfl
    | some nxt2 =>
      dsimp only
      rw [if_neg (by simp [redirectOncePolicy])]
  constructor
  · show followLoop server (7 + 1) u0 [] = (server u0).getD u0
    rw [followLoop]
    cases h : server u0 with
    | none => rfl
    | some nxt =>
      dsimp only
      rw [if_pos (by simp [redirectOncePolicy])]
      simp only [List.nil_append, Option.getD_some]
      exact hstep nxt
  · intro u1 u2 h1 _
    show followLoop server (7 + 1) u0 [] = u1
    rw [followLoop, h1]
    dsimp only
    rw [if_pos (by simp [redirectOncePolicy])]
    simpa using hstep u1

/-- C4 witness: the theorem applied to the concrete two-hop chain
a → b → c resolves a to b (one automatic follow only). -/
theorem c4_witness : get_redirect_url chain2 (str2b "a") = str2b "b" :=
  (c4_theorem chain2 (str2b "a")).2 (str2b "b") (str2b "c")
    (by decide) (by decide)

/-! ### C5 -/

theorem except_bind_error {ε α β : Type} (e : ε) (f : α → Except ε β) :
    (Except.error e >>= f) = Except.error e := rfl

theorem except_bind_ok {ε α β : Type} (a : α) (f : α → Except ε β) :
    (Except.ok a >>= f : Except ε β) = f a := rfl

theorem replace_bshort_go_err (r : Resolver) (t : List Nat) :
    ∀ (ms : List (Nat × Nat × Caps)) (acc : List Nat),
      (∃ m ∈ ms, r (sliceB t m.1 m.2.1) = .error ()) →
      ∃ e, replace_bshort_go r t ms acc = .error e := by
  intro ms
  induction ms with
  | nil =>
    rintro acc ⟨m, hm, _⟩
    exact absurd hm (List.not_mem_nil m)
  | cons m ms ih =>
    rintro acc ⟨m', hm', herr⟩
    obtain ⟨s, e, caps⟩ := m
    cases hr : r (sliceB t s e) with
    | error u => exact ⟨.resolveFail, by simp [replace_bshort_go, hr]⟩
    | ok url =>
      cases hrr : replaceRange acc s e ((trimBiliLink url).toString) with
      | none => exact ⟨.panicked, by simp [replace_bshort_go, hr, hrr]⟩
      | some acc' =>
        have hin : ∃ m'' ∈ ms, r (sliceB t m''.1 m''.2.1) = .error () := by
          rcases List.mem_cons.mp hm' with h | h
          · subst h
            rw [herr] at hr
            cases hr
          · exact ⟨m', h, herr⟩
        obtain ⟨e', he'⟩ := ih acc' hin
        exact ⟨e', by simp [replace_bshort_go, hr, hrr, he']⟩

theorem replace_twitter_short_go_err (r : Resolver) (t : List Nat) :
    ∀ (ms : List (Nat × Nat × Caps)) (acc : List Nat),
      (∃ m ∈ ms, r (sliceB t m.1 m.2.1) = .error ()) →
      ∃ e, replace_twitter_short_go r t ms acc = .error e := by
  intro ms
  induction ms with
  | nil =>
    rintro acc ⟨m, hm, _⟩
    exact absurd hm (List.not_mem_nil m)
  | cons m ms ih =>
    rintro acc ⟨m', hm', herr⟩
    obtain ⟨s, e, caps⟩ := m
    cases hr : r (sliceB t s e) with
    | error u => exact ⟨.resolveFail, by simp [replace_twitter_short_go, hr]⟩
    | ok url =>
      cases hrr : replaceRange acc s e url.toString with
      | none => exact ⟨.panicked, by simp [replace_twitter_short_go, hr, hrr]⟩
      | some acc' =>
        have hin : ∃ m'' ∈ ms, r (sliceB t m''.1 m''.2.1) = .error () := by
          rcases List.mem_cons.mp hm' with h | h
          · subst h
            rw [herr] at hr
            cases hr
          · exact ⟨m', h, herr⟩
        obtain ⟨e', he'⟩ := ih acc' hin
        exact ⟨e', by simp [replace_twitter_short_go, hr, hrr, he']⟩

theorem replace_tiktok_share_go_err (r : Resolver) (t : List Nat) :
    ∀ (ms : List (Nat × Nat × Caps)) (acc : List Nat),
      (∃ m ∈ ms, r (sliceB t m.1 m.2.1) = .error ()) →
      ∃ e, replace_tiktok_share_go r t ms acc = .error e := by
  intro ms
  induction ms with
  | nil =>
    rintro acc ⟨m, hm, _⟩
    exact absurd hm (List.not_mem_nil m)
  | cons m ms ih =>
    rintro acc ⟨m', hm', herr⟩
    obtain ⟨s, e, caps⟩ := m
    cases hr : r (sliceB t s e) with
    | error u => exact ⟨.resolveFail, by simp [replace_tiktok_share_go, hr]⟩
    | ok url =>
      cases hrr : replaceRange acc s e (url.setQuery none).toString with
      | none => exact ⟨.panicked, by simp [replace_tiktok_share_go, hr, hrr]⟩
      | some acc' =>
        have hin : ∃ m'' ∈ ms, r (sliceB t m''.1 m''.2.1) = .error () := by
          rcases List.mem_cons.mp hm' with h | h
          · subst h
            rw [herr] at hr
            cases hr
          · exact ⟨m', h, herr⟩
        obtain ⟨e', he'⟩ := ih acc' hin
        exact ⟨e', by simp [replace_tiktok_share_go, hr, hrr, he']⟩

/-- C5: a failed redirect resolution of any matched short-link occurrence
fails the whole pipeline call: the error propagates through the monadic
chain of this pipeline stage and of the following ones, and the caller
receives an error value carrying no rewritten string (a write that would
panic in Rust likewise yields no rewritten string, modelled by the
panic error).  The three conjuncts cover the three network-resolving
rules, each applied to the text that stage actually scans. -/
theorem c5_theorem (r : Resolver) (t : List Nat) :
    ((∃ m ∈ findIter BSHORT_REGEX t, r (sliceB t m.1 m.2.1) = .error ()) →
      ∃ e, replace_all r t = .error e)
    ∧ (∀ t1, replace_bshort r t = .ok t1 →
        (∃ m ∈ findIter TWITTER_SHORT_REGEX t1,
            r (sliceB t1 m.1 m.2.1) = .error ()) →
        ∃ e, replace_all r t = .error e)
    ∧ (∀ t1 t2, replace_bshort r t = .ok t1 →
        replace_twitter_short r t1 = .ok t2 →
        (∃ m ∈ findIter TIKTOK_SHARE_REGEX t2,
            r (sliceB t2 m.1 m.2.1) = .error ()) →
        ∃ e, replace_all r t = .error e) := by
  refine ⟨?_, ?_, ?_⟩
  · intro hex
    obtain ⟨e, he⟩ := replace_bshort_go_err r t _ t hex
    refine ⟨e, ?_⟩
    rw [replace_all, replace_bshort, he, except_bind_error]
  · intro t1 h1 hex
    obtain ⟨e, he⟩ := replace_twitter_short_go_err r t1 _ t1 hex
    refine ⟨e, ?_⟩
    rw [replace_all, h1, except_bind_ok, replace_twitter_short, he,
      except_bind_error]
  · intro t1 t2 h1 h2 hex
    obtain ⟨e, he⟩ := replace_tiktok_share_go_err r t2 _ t2 hex
    refine ⟨e, ?_⟩
    rw [replace_all, h1, except_bind_ok, h2, except_bind_ok,
      replace_tiktok_share, he, except_bind_error]

/-- C5 witness: the theorem applied to a text that is exactly a b23.tv
short link, with the resolver that fails every lookup. -/
theorem c5_witness :
    ∃ e, replace_all rfail (str2b "https://b23.tv/abc") = .error e :=
  (c5_theorem rfail (str2b "https://b23.tv/abc")).1
    ⟨(0, 18, []), by decide, rfl⟩

/-! ### C6 -/

theorem replace_weixin_go_skip (t : List Nat) :
    ∀ (ms : List (Nat × Nat × Caps)) (acc : List Nat),
      (∀ m ∈ ms, urlFromStr (sliceB t m.1 m.2.1) = none) →
      replace_weixin_go t ms acc = .ok acc := by
  intro ms
  induction ms with
  | nil => intro acc _; rfl
  | cons m ms ih =>
    intro acc h
    obtain ⟨s, e, caps⟩ := m
    have hm : urlFromStr (sliceB t s e) = none :=
      h (s, e, caps) (List.mem_cons_self _ _)
    have h' : ∀ m' ∈ ms, urlFromStr (sliceB t m'.1 m'.2.1) = none :=
      fun m' hm' => h m' (List.mem_cons_of_mem _ hm')
    simp [replace_weixin_go, hm, ih acc h']

/-- C6 counterexample: the claim says that whenever a match cannot be
parsed as a URL the rule does not fail and every other occurrence is still
processed, the unparsable occurrence staying untouched.  On this input the
third weixin match is scheme-less (unparsable, so it is skipped), but the
first match's replacement shrinks the working string by 37 bytes while the
second match's replacement is still written at its original byte range —
which now lies past the end of the string: `String::replace_range` panics
in Rust (modelled as the panic error), so the rule fails and no output with
the untouched occurrence exists at all. -/
theorem c6_counterexample :
    (∃ m ∈ findIter WEIXIN_REGEX weixinPanicInput,
      urlFromStr (sliceB weixinPanicInput m.1 m.2.1) = none)
    ∧ replace_weixin weixinPanicInput = .error .panicked :=
  ⟨⟨(91, 109, []), by decide, by decide⟩, rfl⟩

/-- C6 (amended): an individual match that cannot be parsed as a URL is
skipped — no replacement is written for it and iteration continues with the
remaining matches.  When every match of the text is unparsable the rule
returns the text unchanged, and on a text where an unparsable match is
followed by a parsable one (no earlier length change), the unparsable
occurrence is left byte-for-byte untouched while the other is rewritten.
However, replacements are applied at original-text offsets, so an earlier
length-changing replacement can make a later write land out of bounds and
the rule panic (see the counterexample). -/
theorem c6_amended :
    (∀ t : List Nat,
      (∀ m ∈ findIter WEIXIN_REGEX t, urlFromStr (sliceB t m.1 m.2.1) = none) →
      replace_weixin t = .ok t)
    ∧ replace_weixin weixinSkipInput
      = .ok (str2b "mp.weixin.qq.com/s&&https://mp.weixin.qq.com/s") := by
  constructor
  · intro t h
    exact replace_weixin_go_skip t _ t h
  · rfl

/-- C6 witness: the amended theorem's universal part applied to a text that
is exactly one scheme-less weixin match. -/
theorem c6_witness :
    replace_weixin (str2b "mp.weixin.qq.com/s") = .ok (str2b "mp.weixin.qq.com/s") :=
  c6_amended.1 (str2b "mp.weixin.qq.com/s") (by decide)

/-! ### C7 -/

theorem replace_qrcode_go_ok_none_iff {Img Qr QrImg : Type}
    (rewrite : List Nat → Except PErr (List Nat))
    (encodeQr : List Nat → Option Qr) (render : Qr → Int → Int → QrImg)
    (overlay : Img → QrImg → Int × Int → Img) :
    ∀ (gs : List QGrid) (img : Img) (urls : List (List Nat)) (cnt : Nat),
      replace_qrcode_go rewrite encodeQr render overlay gs img urls cnt = .ok none
        ↔ (cnt = 0 ∧ ∀ g ∈ gs, ∃ c, g.decode = .ok c ∧ rewrite c = .ok c) := by
  intro gs
  induction gs with
  | nil =>
    intro img urls cnt
    by_cases hc : cnt = 0 <;> simp [replace_qrcode_go, hc]
  | cons g gs ih =>
    intro img urls cnt
    cases hd : g.decode with
    | error u =>
      simp [replace_qrcode_go, hd, List.forall_mem_cons]
    | ok c =>
      cases hr : rewrite c with
      | error e =>
        simp [replace_qrcode_go, hd, hr, List.forall_mem_cons]
      | ok c' =>
        by_cases hc : c' = c
        · subst hc
          simp [replace_qrcode_go, hd, hr, List.forall_mem_cons, ih]
        · cases he : encodeQr c' with
          | none =>
            simp only [replace_qrcode_go, hd, hr, if_neg hc, he,
              List.forall_mem_cons]
            constructor
            · intro h
              cases h
            · rintro ⟨-, ⟨c2, hc2, hr2⟩, -⟩
              cases hc2
              rw [hr] at hr2
              cases hr2
              exact absurd rfl hc
          | some qr =>
            simp only [replace_qrcode_go, hd, hr, if_neg hc, he,
              List.forall_mem_cons, ih]
            constructor
            · rintro ⟨h, -⟩
              cases h
            · rintro ⟨-, ⟨c2, hc2, hr2⟩, -⟩
              cases hc2
              rw [hr] at hr2
              cases hr2
              exact absurd rfl hc

theorem replace_qrcode_go_ok_some {Img Qr QrImg : Type}
    (rewrite : List Nat → Except PErr (List Nat))
    (encodeQr : List Nat → Option Qr) (render : Qr → Int → Int → QrImg)
    (overlay : Img → QrImg → Int × Int → Img) :
    ∀ (gs : List QGrid) (img : Img) (urls : List (List Nat)) (cnt : Nat),
      (∀ g ∈ gs, ∃ c c', g.decode = .ok c ∧ rewrite c = .ok c'
        ∧ (c' ≠ c → (encodeQr c').isSome)) →
      ∃ img', replace_qrcode_go rewrite encodeQr render overlay gs img urls cnt
        = .ok (if cnt + (changedPayloads rewrite gs).length = 0 then none
               else some (img', urls ++ changedPayloads rewrite gs)) := by
  intro gs
  induction gs with
  | nil =>
    intro img urls cnt _
    refine ⟨img, ?_⟩
    by_cases hc : cnt = 0 <;> simp [replace_qrcode_go, changedPayloads, hc]
  | cons g gs ih =>
    intro img urls cnt h
    obtain ⟨c, c', hd, hr, henc⟩ := h g (List.mem_cons_self g gs)
    have h' : ∀ g' ∈ gs, ∃ c c', g'.decode = .ok c ∧ rewrite c = .ok c'
        ∧ (c' ≠ c → (encodeQr c').isSome) :=
      fun g' hg' => h g' (List.mem_cons_of_mem g hg')
    by_cases hc : c' = c
    · subst hc
      obtain ⟨img', himg'⟩ := ih img urls cnt h'
      refine ⟨img', ?_⟩
      simp only [replace_qrcode_go, hd, hr, if_pos rfl, himg',
        changedPayloads, List.filterMap_cons]
      simp [hd, hr, changedPayloads]
    · obtain ⟨qr, hqr⟩ := Option.isSome_iff_exists.mp (henc hc)
      obtain ⟨img', himg'⟩ :=
        ih (overlay img (render qr (g.b1.1 - g.b0.1) (g.b3.2 - g.b0.2))
            (g.b0.1 - 5, g.b0.2 - 5))
          (urls ++ [c']) (cnt + 1) h'
      refine ⟨img', ?_⟩
      simp only [replace_qrcode_go, hd, hr, if_neg hc, hqr, himg']
      have hch : changedPayloads rewrite (g :: gs)
          = c' :: changedPayloads rewrite gs := by
        simp [changedPayloads, hd, hr, hc]
      rw [hch]
      simp only [List.length_cons]
      rw [if_neg (by omega), if_neg (by omega)]
      simp [List.append_assoc]

/-- C7: outcome characterization of the QR pipeline.  First conjunct:
the call returns no-change exactly when every detected grid decodes and its
payload is unchanged by the text pipeline — which covers precisely the two
claimed situations: zero grids (vacuously) and grids all unchanged.
Second conjunct: when every grid decodes, rewrites, and (if changed)
encodes, the call returns the modified image together with exactly the
rewritten payloads of the changed grids, in detection order. -/
theorem c7_theorem {Img Qr QrImg : Type}
    (rewrite : List Nat → Except PErr (List Nat))
    (encodeQr : List Nat → Option Qr) (render : Qr → Int → Int → QrImg)
    (overlay : Img → QrImg → Int × Int → Img)
    (grids : List QGrid) (img : Img) :
    (replace_qrcode rewrite encodeQr render overlay grids img = .ok none
      ↔ ∀ g ∈ grids, ∃ c, g.decode = .ok c ∧ rewrite c = .ok c)
    ∧ ((∀ g ∈ grids, ∃ c c', g.decode = .ok c ∧ rewrite c = .ok c'
          ∧ (c' ≠ c → (encodeQr c').isSome)) →
        ∃ img', replace_qrcode rewrite encodeQr render overlay grids img
          = .ok (if changedPayloads rewrite grids = [] then none
                 else some (img', changedPayloads rewrite grids))) := by
  constructor
  · cases grids with
    | nil => simp [replace_qrcode]
    | cons g gs =>
      rw [replace_qrcode, if_neg (by simp)]
      rw [replace_qrcode_go_ok_none_iff]
      simp
  · intro h
    cases grids with
    | nil => exact ⟨img, by simp [replace_qrcode, changedPayloads]⟩
    | cons g gs =>
      obtain ⟨img', himg'⟩ :=
        replace_qrcode_go_ok_some rewrite encodeQr render overlay
          (g :: gs) img [] 0 h
      refine ⟨img', ?_⟩
      rw [replace_qrcode, if_neg (by simp), himg']
      simp only [Nat.zero_add, List.nil_append]
      by_cases hch : changedPayloads rewrite (g :: gs) = []
      · rw [if_pos hch, if_pos (by simp [hch])]
      · rw [if_neg hch, if_neg (by simpa [List.length_eq_zero] using hch)]

/-- C7 witness: the theorem's second conjunct applied to two concrete
grids, one whose payload is rewritten and one whose payload is unchanged:
the call returns an image and exactly the one rewritten payload. -/
theorem c7_witness :
    ∃ img' : Nat, replace_qrcode qrWitRewrite (fun _ => some 0)
        (fun _ _ _ => (0 : Nat)) (fun i _ _ => i + 1)
        [qrWitGrid (str2b "x"), qrWitGrid (str2b "z")] 0
      = .ok (if changedPayloads qrWitRewrite
                [qrWitGrid (str2b "x"), qrWitGrid (str2b "z")] = []
             then none
             else some (img', changedPayloads qrWitRewrite
                [qrWitGrid (str2b "x"), qrWitGrid (str2b "z")])) := by
  refine (c7_theorem qrWitRewrite (fun _ => some 0) (fun _ _ _ => (0 : Nat))
    (fun i _ _ => i + 1) [qrWitGrid (str2b "x"), qrWitGrid (str2b "z")] 0).2 ?_
  intro g hg
  rcases List.mem_cons.mp hg with rfl | hg
  · exact ⟨str2b "x", str2b "y", rfl, rfl, fun _ => rfl⟩
  rcases List.mem_cons.mp hg with rfl | hg
  · exact ⟨str2b "z", str2b "z", rfl, rfl, fun _ => rfl⟩
  · exact absurd hg (List.not_mem_nil _)

/-! ### C8 -/

/-- C8 counterexample to idempotence: on a text with two twitter status
URLs the first pass rewrites only the first one (`replace_twitter` replaces
a single match per pass), so the second pass rewrites the remaining one and
the output changes again.  No short-link pattern matches either text, so
the resolver is never consulted and the result holds for any resolver. -/
theorem c8_counterexample :
    replace_all rfail twoTwitter
      = .ok (str2b "https://fixupx.com/a/status/1 https://twitter.com/b/status/2")
    ∧ replace_all rfail
        (str2b "https://fixupx.com/a/status/1 https://twitter.com/b/status/2")
      = .ok (str2b "https://fixupx.com/a/status/1 https://fixupx.com/b/status/2")
    ∧ str2b "https://fixupx.com/a/status/1 https://fixupx.com/b/status/2"
      ≠ str2b "https://fixupx.com/a/status/1 https://twitter.com/b/status/2" :=
  ⟨rfl, rfl, by decide⟩

/-- C8 (amended): the pipeline is not idempotent in general — a text with
two occurrences of the twitter pattern keeps changing on a second pass
because `replace_twitter` rewrites only the first match per pass — but a
single canonical URL produced by a successful pass is a fixed point: both
the canonical twitter form and the canonical bilibili video form pass
through every rule unchanged (no short-link pattern matches them, so the
result is resolver-independent). -/
theorem c8_amended :
    replace_all rfail (str2b "https://fixupx.com/a/status/1")
      = .ok (str2b "https://fixupx.com/a/status/1")
    ∧ replace_all rfail (str2b "https://www.bilibili.com/video/BV1Hg411T7fT/")
      = .ok (str2b "https://www.bilibili.com/video/BV1Hg411T7fT/")
    ∧ findIter BSHORT_REGEX (str2b "https://fixupx.com/a/status/1") = []
    ∧ findIter TWITTER_SHORT_REGEX (str2b "https://fixupx.com/a/status/1") = []
    ∧ findIter TIKTOK_SHARE_REGEX (str2b "https://fixupx.com/a/status/1") = []
    ∧ findIter BSHORT_REGEX (str2b "https://www.bilibili.com/video/BV1Hg411T7fT/") = []
    ∧ findIter TWITTER_SHORT_REGEX (str2b "https://www.bilibili.com/video/BV1Hg411T7fT/") = []
    ∧ findIter TIKTOK_SHARE_REGEX (str2b "https://www.bilibili.com/video/BV1Hg411T7fT/") = [] :=
  ⟨rfl, rfl, by decide, by decide, by decide, by decide, by decide, by decide⟩

/-! ### C9 -/

/-- C9 counterexample: the claim says an occurrence whose preceding
character makes the domain a substring of a longer host is not matched by
any rule.  But the boundary assertion only rejects ASCII letters: in
fake-bilibili.com/video/BV1A the hyphen before bilibili.com passes the
lookbehind, and `BVIDEO_REGEX` does match the occurrence (at byte 5, i.e.
as a substring of the longer host fake-bilibili.com). -/
theorem c9_counterexample :
    findIter BVIDEO_REGEX (str2b "fake-bilibili.com/video/BV1A")
      = [(5, 28, [])] := by decide

/-- C9 (amended): the boundary group only requires that the byte before
the match is not an ASCII letter (or that the match starts the text or
with an explicit scheme): a letter-preceded occurrence is not matched
(fakebilibili.com/video/BV1A), and the literal fake-bilibili.com alone is
not matched either (no /video/ path); a non-letter predecessor such as a
hyphen does not block matching, though the pipeline then leaves the
occurrence unchanged because the scheme-less match fails URL parsing and
is skipped; and for `BSHORT_REGEX` the boundary group is optional, so even
a letter-preceded b23.tv occurrence is matched. -/
theorem c9_amended :
    findIter BVIDEO_REGEX (str2b "fakebilibili.com/video/BV1A") = []
    ∧ findIter BVIDEO_REGEX (str2b "fake-bilibili.com") = []
    ∧ replace_all rfail (str2b "fake-bilibili.com/video/BV1A")
      = .ok (str2b "fake-bilibili.com/video/BV1A")
    ∧ findIter BSHORT_REGEX (str2b "fakeb23.tv/AbC") = [(4, 14, [])] :=
  ⟨by decide, by decide, rfl, by decide⟩

/-! ### C10 -/

theorem applyRanges_err :
    ∀ (rs : List (Nat × Nat × List Nat)) (acc : List Nat) (e : PErr),
      applyRanges rs acc = .error e → e = .panicked := by
  intro rs
  induction rs with
  | nil =>
    intro acc e h
    cases h
  | cons x rs ih =>
    intro acc e h
    obtain ⟨s, en, rep⟩ := x
    rw [applyRanges] at h
    cases hrr : replaceRange acc s en rep with
    | none =>
      rw [hrr] at h
      cases h
      rfl
    | some acc' =>
      rw [hrr] at h
      exact ih acc' e h

theorem replace_weixin_go_err (t : List Nat) :
    ∀ (ms : List (Nat × Nat × Caps)) (acc : List Nat) (e : PErr),
      replace_weixin_go t ms acc = .error e → e = .panicked := by
  intro ms
  induction ms with
  | nil =>
    intro acc e h
    cases h
  | cons m ms ih =>
    intro acc e h
    obtain ⟨s, en, caps⟩ := m
    rw [replace_weixin_go] at h
    cases hu : urlFromStr (sliceB t s en) with
    | none =>
      rw [hu] at h
      exact ih acc e h
    | some url =>
      rw [hu] at h
      dsimp only at h
      cases hrr : replaceRange acc s en ((url.keepPairsOnlyIn weixinKeys).toString) with
      | none =>
        rw [hrr] at h
        cases h
        rfl
      | some acc' =>
        rw [hrr] at h
        exact ih acc' e h

/-- C10 counterexample: a text without any short-link match on which the
pipeline still fails to return Ok.  The two youtube matches both end in a
bare `?` that URL normalization drops, so the first replacement shrinks the
string by one byte and the second `replace_range`, applied at
original-text offsets, ends past the end of the string:
`String::replace_range` panics in Rust (the pipeline call never returns),
modelled as the panic error. -/
theorem c10_counterexample :
    findIter BSHORT_REGEX youtubePanicInput = []
    ∧ findIter TWITTER_SHORT_REGEX youtubePanicInput = []
    ∧ findIter TIKTOK_SHARE_REGEX youtubePanicInput = []
    ∧ replace_all rfail youtubePanicInput = .error .panicked :=
  ⟨by decide, by decide, by decide, rfl⟩

/-- C10 (amended): when none of the three short-link patterns matches, the
pipeline never returns the resolver-failure error — the resolver is never
consulted, and the only remaining failure mode is an out-of-bounds
`replace_range` panic in one of the offset-applying rules (which in Rust
is a panic, not an Err return). -/
theorem c10_amended (r : Resolver) (t : List Nat)
    (h1 : findIter BSHORT_REGEX t = [])
    (h2 : findIter TWITTER_SHORT_REGEX t = [])
    (h3 : findIter TIKTOK_SHARE_REGEX t = []) :
    replace_all r t ≠ .error .resolveFail := by
  intro hbad
  rw [replace_all, replace_bshort, h1] at hbad
  rw [show replace_bshort_go r t [] t = .ok t from rfl, except_bind_ok] at hbad
  rw [replace_twitter_short, h2] at hbad
  rw [show replace_twitter_short_go r t [] t = .ok t from rfl,
    except_bind_ok] at hbad
  rw [replace_tiktok_share, h3] at hbad
  rw [show replace_tiktok_share_go r t [] t = .ok t from rfl,
    except_bind_ok] at hbad
  cases hy : replace_youtube t with
  | error e =>
    rw [hy, except_bind_error] at hbad
    cases hbad
    exact absurd (applyRanges_err _ _ _ hy) (by decide)
  | ok t4 =>
    rw [hy, except_bind_ok] at hbad
    cases hb : replace_btrack t4 with
    | error e =>
      rw [hb, except_bind_error] at hbad
      cases hbad
      exact absurd (applyRanges_err _ _ _ hb) (by decide)
    | ok t5 =>
      rw [hb, except_bind_ok] at hbad
      dsimp only at hbad
      cases hw : replace_weixin (replace_amazon_search (replace_amazon
          (replace_twitter_x (replace_twitter (replace_bopus
            (replace_barticle t5)))))) with
      | error e =>
        rw [hw, except_bind_error] at hbad
        cases hbad
        exact absurd (replace_weixin_go_err _ _ _ _ hw) (by decide)
      | ok t6 =>
        rw [hw, except_bind_ok] at hbad
        cases hbad

/-- C10 witness: the amended theorem applied to a plain word with no match
of any pattern. -/
theorem c10_witness :
    replace_all rfail (str2b "hello") ≠ .error .resolveFail :=
  c10_amended rfail (str2b "hello") (by decide) (by decide) (by decide)

/-! ### The unit tests of `replacer.rs`, replayed through the embedding -/

example :
    replace_btrack (str2b "https://www.bilibili.com/video/BV114514/?t=123&p=1&spm=1.2212.22321")
      = .ok (str2b "https://www.bilibili.com/video/BV114514/?t=123&p=1") := rfl

example :
    replace_btrack (str2b "https://www.bilibili.com/video/BV114514/?t=123&spm=1.2212.22321")
      = .ok (str2b "https://www.bilibili.com/video/BV114514/?t=123") := rfl

example :
    replace_barticle (str2b "https://www.bilibili.com/read/mobile/19172625?xxx=114514&asdfasdf=32394239ADSAD-12312aASDASD")
      = str2b "https://www.bilibili.com/read/cv19172625" := rfl

example :
    replace_weixin (str2b "https://mp.weixin.qq.com/s?__biz=MzIzzMwNjc1NzU==&mid=2650309&idx=114514&sn=2fd9d2a3b0b544a6da&chksm=e8de3b77dfa9b2612b676b21f34a75a79994bfcd4a4#rd")
      = .ok (str2b "https://mp.weixin.qq.com/s?__biz=MzIzzMwNjc1NzU%3D%3D&mid=2650309&idx=114514&sn=2fd9d2a3b0b544a6da#rd") := rfl

example :
    replace_jd (str2b "https://item.m.jd.com/product/100026923531.html?&utm_source=iosapp&utm_medium=appshare&utm_campaign=114514&utm_term=CopyURL&ad_od=share&gx=T2nEPztRx6NTRa30RpDCM")
      = str2b "https://item.m.jd.com/product/100026923531.html" := rfl

/-! ### C2 -/

/-- C2: evaluating the pipeline at the spec's literal input.  The claim
(and the repository's own test on `replace_twitter`) expects
the canonical embed-proxy host to come out, but `replace_twitter` never
matches a fixupx URL (`TWITTER_REGEX` needs a literal twitter host) and its
template produces the fixupx host anyway; the match is handled by
`replace_twitter_x`, whose template keeps the fixupx host.  The query is
dropped, but the host of the output differs from the claimed one.  The
conjuncts on the three short-link matchers show the resolver is never
consulted, so the result holds for the real network client as well. -/
theorem c2_theorem :
    replace_all rfail
        (str2b "https://fixupx.com/Penny_0571/status/1587323246506528769?s=20&t=0Mzx3uLKTD-kygDQmaXvFq")
      = .ok (str2b "https://fixupx.com/Penny_0571/status/1587323246506528769")
    ∧ findIter BSHORT_REGEX
        (str2b "https://fixupx.com/Penny_0571/status/1587323246506528769?s=20&t=0Mzx3uLKTD-kygDQmaXvFq") = []
    ∧ findIter TWITTER_SHORT_REGEX
        (str2b "https://fixupx.com/Penny_0571/status/1587323246506528769?s=20&t=0Mzx3uLKTD-kygDQmaXvFq") = []
    ∧ findIter TIKTOK_SHARE_REGEX
        (str2b "https://fixupx.com/Penny_0571/status/1587323246506528769?s=20&t=0Mzx3uLKTD-kygDQmaXvFq") = []
    ∧ str2b "https://fixupx.com/Penny_0571/status/1587323246506528769"
      ≠ str2b "https://c.vxtwitter.com/Penny_0571/status/1587323246506528769" :=
  ⟨rfl, by decide, by decide, by decide, by decide⟩

end Burl
